import Mathlib

/-!
Verification of the RESP style server in src/app/main.py.

The byte stream of a connection is modelled as a `List Nat` (byte values);
reading n bytes takes from the front, and an exhausted stream yields fewer
bytes, exactly as asyncio read does at end of stream.  Python strings are
`String`, Python exceptions are the explicit error type `Err`, and every
fallible Python operation returns `Except Err`.  The recursive decoder
carries a fuel argument because the Python original recurses on untrusted
input without a bound; every successful decode step consumes at least one
byte, so a fuel of one more than the stream length is always sufficient,
and the top level wrappers use exactly that.
-/

namespace RedisImpl

/-- Exceptions the Python implementation can raise, one constructor per
raise site in src/app/main.py. -/
inductive Err where
  /-- The raise in read_type: the marker byte is not one of the three known
  markers, including an empty read at end of stream. -/
  | unknownType
  /-- UnicodeDecodeError from bytes.decode with the ascii codec. -/
  | decodeFail
  /-- ValueError from int() on a token that is not an integer literal. -/
  | invalidInt
  /-- AssertionError in read_bulk_string: the two bytes after the content
  are not the field terminator. -/
  | badTerminator
  /-- ValueError from destructuring an empty list into command, *arguments. -/
  | unpackEmpty
  /-- AttributeError from calling upper on a value that is not a str. -/
  | upperNonText
  /-- TypeError from the space join when an element is not a str. -/
  | joinNonText
  /-- UnicodeEncodeError from str.encode with the ascii codec. -/
  | encodeFail
  /-- Artifact of the fuel bound on the decoder recursion; never reached
  when the fuel exceeds the stream length. -/
  | outOfFuel
  deriving DecidableEq

/-- The RedisDataType enumeration of the source. -/
inductive RedisDataType where
  | SimpleString
  | BulkString
  | LIST
  deriving DecidableEq

/-- Decoded protocol values: the Python decoder returns either a str or a
list of decoded values. -/
inductive RValue where
  | text (s : String)
  | list (l : List RValue)

/-- Byte values the Python str.isspace predicate accepts in the ascii
range; str.strip removes exactly these characters at both ends. -/
def pySpaceCodes : List Nat := [9, 10, 11, 12, 13, 28, 29, 30, 31, 32]

def pyIsSpace (c : Char) : Bool := pySpaceCodes.contains c.toNat

/-- Python lstrip followed by rstrip on the character list. -/
def pyStripList (l : List Char) : List Char :=
  ((l.dropWhile pyIsSpace).reverse.dropWhile pyIsSpace).reverse

def pyStrip (s : String) : String := String.mk (pyStripList s.data)

/-- Every character of the string is in the ascii range. -/
abbrev isAsciiStr (s : String) : Prop := ∀ c ∈ s.data, c.toNat < 128

/-- bytes.decode with the ascii codec: fails unless every byte is below
128. -/
def decodeAscii (bs : List Nat) : Except Err String :=
  if ∀ b ∈ bs, b < 128 then .ok (String.mk (bs.map Char.ofNat))
  else .error .decodeFail

/-- The byte values of a string under the ascii codec. -/
def strBytes (s : String) : List Nat := s.data.map Char.toNat

/-- str.encode with the ascii codec: fails unless every character is in
the ascii range. -/
def encodeAscii (s : String) : Except Err (List Nat) :=
  if isAsciiStr s then .ok (strBytes s) else .error .encodeFail

/-- The character of a decimal digit value. -/
def digitChar (d : Nat) : Char := Char.ofNat (48 + d)

/-- Decimal printing with explicit fuel; the fuel makes the recursion
structural so that concrete evaluation works in the kernel. -/
def natToDecimalGo : Nat → Nat → List Char
  | 0, _ => []
  | fuel + 1, n =>
    if n < 10 then [digitChar n]
    else natToDecimalGo fuel (n / 10) ++ [digitChar (n % 10)]

/-- Decimal digits of a natural number, as Python str applied to a non
negative int produces them. -/
def natToDecimal (n : Nat) : List Char := natToDecimalGo (n + 1) n

/-- Digit run of the Python int() grammar: digits with single underscores
allowed between two digits. -/
def pyDigitsAux : Nat → List Char → Option Nat
  | acc, [] => some acc
  | acc, [c] => if c.isDigit then some (10 * acc + (c.toNat - 48)) else none
  | acc, c :: d :: rest =>
    if c.isDigit then pyDigitsAux (10 * acc + (c.toNat - 48)) (d :: rest)
    else if c = '_' then
      if d.isDigit then pyDigitsAux (10 * acc + (d.toNat - 48)) rest else none
    else none

/-- A nonempty digit run starting with a digit. -/
def pyParseDigits : List Char → Option Nat
  | [] => none
  | c :: rest => if c.isDigit then pyDigitsAux (c.toNat - 48) rest else none

/-- Python int() on the characters of an already stripped ascii string:
an optional single sign, then a digit run. -/
def pyIntList : List Char → Except Err Int
  | [] => .error .invalidInt
  | c :: rest =>
    if c = '-' then
      match pyParseDigits rest with
      | some n => .ok (-(n : Int))
      | none => .error .invalidInt
    else if c = '+' then
      match pyParseDigits rest with
      | some n => .ok (n : Int)
      | none => .error .invalidInt
    else
      match pyParseDigits (c :: rest) with
      | some n => .ok (n : Int)
      | none => .error .invalidInt

/-- Python int() on a string. -/
def pyInt (s : String) : Except Err Int := pyIntList s.data

/-- Folding a digit run into its value, as the parser accumulates it. -/
def digitsFold (acc : Nat) (l : List Char) : Nat :=
  l.foldl (fun a c => 10 * a + (c.toNat - 48)) acc

/-- The two byte field terminator CR LF. -/
def END_OF_FIELD : List Nat := [13, 10]

/-- Whether the accumulated buffer ends with the field terminator. -/
def endsCRLF (l : List Nat) : Bool :=
  match l.reverse with
  | b :: c :: _ => b == 10 && c == 13
  | _ => false

/-- Loop body of read_next_field: check the terminator, then read one
byte; an empty read at end of stream exits the loop. -/
def readNextFieldGo : List Nat → List Nat → List Nat × List Nat
  | acc, [] => (acc, [])
  | acc, b :: rest =>
    if endsCRLF acc then (acc, b :: rest) else readNextFieldGo (acc ++ [b]) rest

/-- read_next_field: accumulate single byte reads until the buffer ends
with the terminator or the stream is exhausted; returns the accumulated
bytes, terminator included, and the remaining stream. -/
def read_next_field (s : List Nat) : List Nat × List Nat := readNextFieldGo [] s

/-- read_type: one byte mapped to the marker enumeration; any other byte,
including an empty read at end of stream, raises. -/
def read_type (s : List Nat) : Except Err (RedisDataType × List Nat) :=
  match s with
  | 42 :: rest => .ok (.LIST, rest)
  | 43 :: rest => .ok (.SimpleString, rest)
  | 36 :: rest => .ok (.BulkString, rest)
  | _ => .error .unknownType

/-- read_simple_string: one field, decoded as ascii, stripped at both
ends. -/
def read_simple_string (s : List Nat) : Except Err (String × List Nat) := do
  let (field, s1) := read_next_field s
  let t ← decodeAscii field
  .ok (pyStrip t, s1)

/-- read_bulk_string: a length field, then that many content bytes read by
count, then two bytes that must equal the terminator; the content is
decoded as ascii and stripped at both ends.  A negative parsed length
makes the content loop run zero times, exactly like range in Python. -/
def read_bulk_string (s : List Nat) : Except Err (String × List Nat) := do
  let (field, s1) := read_next_field s
  let lenText ← decodeAscii field
  let n ← pyInt (pyStrip lenText)
  let bytesRead := s1.take n.toNat
  let s2 := s1.drop n.toNat
  let endField := s2.take 2
  let s3 := s2.drop 2
  if endField = END_OF_FIELD then do
    let t ← decodeAscii bytesRead
    .ok (pyStrip t, s3)
  else .error .badTerminator

/-- The element loop of read_array: decode the declared number of child
values in order, propagating any child failure. -/
def read_arrayLoop (rd : List Nat → Except Err (RValue × List Nat)) :
    Nat → List Nat → Except Err (List RValue × List Nat)
  | 0, s => .ok ([], s)
  | k + 1, s => do
    let (v, s1) ← rd s
    let (l, s2) ← read_arrayLoop rd k s1
    .ok (v :: l, s2)

/-- read_array, parametrised by the child decoder: a count field, then
that many recursively decoded values. -/
def read_array_core (rd : List Nat → Except Err (RValue × List Nat))
    (s : List Nat) : Except Err (List RValue × List Nat) := do
  let (field, s1) := read_next_field s
  let t ← decodeAscii field
  let n ← pyInt (pyStrip t)
  read_arrayLoop rd n.toNat s1

/-- read_data with a fuel bound on the recursion depth; the Python
original recurses without a bound. -/
def read_dataF : Nat → List Nat → Except Err (RValue × List Nat)
  | 0, _ => .error .outOfFuel
  | fuel + 1, s => do
    let (dtype, s1) ← read_type s
    match dtype with
    | .LIST => do
      let (l, s2) ← read_array_core (read_dataF fuel) s1
      .ok (.list l, s2)
    | .SimpleString => do
      let (t, s2) ← read_simple_string s1
      .ok (.text t, s2)
    | .BulkString => do
      let (t, s2) ← read_bulk_string s1
      .ok (.text t, s2)

/-- read_data on a stream: the fuel one above the stream length can never
run out because each nesting level consumes the marker byte. -/
def read_data (s : List Nat) : Except Err (RValue × List Nat) :=
  read_dataF (s.length + 1) s

/-- read_array as called on a full stream. -/
def read_array (s : List Nat) : Except Err (List RValue × List Nat) :=
  read_array_core read_data s

/-- Extract the string of a text value; none on a list. -/
def getText : RValue → Option String
  | .text t => some t
  | .list _ => none

/-- Whether a decoded value is text. -/
def RValue.isTextB : RValue → Bool
  | .text _ => true
  | .list _ => false

/-- The space join of Python applied to a list of str. -/
def spaceJoin : List String → String
  | [] => ""
  | [a] => a
  | a :: rest => a ++ " " ++ spaceJoin rest

/-- All elements as strings, none when some element is not text. -/
def getTexts : List RValue → Option (List String)
  | [] => some []
  | v :: rest =>
    match getText v with
    | some t =>
      match getTexts rest with
      | some ts => some (t :: ts)
      | none => none
    | none => none

/-- The space join as called in make_bulk_string: raises TypeError when an
element is not a str. -/
def pyJoin (arguments : List RValue) : Except Err String :=
  match getTexts arguments with
  | some ts => .ok (spaceJoin ts)
  | none => .error .joinNonText

/-- make_bulk_string: join the arguments with single spaces, frame the
result with the dollar marker, the decimal length and terminators, and
encode as ascii. -/
def make_bulk_string (arguments : List RValue) : Except Err (List Nat) := do
  let result ← pyJoin arguments
  encodeAscii ("$" ++ String.mk (natToDecimal result.length) ++ "\r\n" ++ result ++ "\r\n")

/-- The wire bytes of a bulk string whose content is the ascii string t
and whose declared length is the byte length of t: the dollar marker, the
decimal length, a terminator, the content bytes, a terminator. -/
def bulkWire (t : String) : List Nat :=
  36 :: ((natToDecimal t.length).map Char.toNat ++ 13 :: 10 :: (strBytes t ++ 13 :: 10 :: []))

/-- Python str.upper on the ascii range. -/
def pyUpper (s : String) : String := String.mk (s.data.map Char.toUpper)

/-- The bytes handle_ping writes. -/
def handle_ping : List Nat := strBytes "+PONG\r\n"

/-- The match on command.upper() in handle_command: upper on a non str
raises AttributeError; PING writes the fixed pong reply, ECHO writes the
bulk string of the arguments, any other name writes nothing. -/
def dispatchCmd (command : RValue) (arguments : List RValue) : Except Err (List Nat) :=
  match command with
  | .list _ => .error .upperNonText
  | .text t =>
    if pyUpper t = "PING" then .ok handle_ping
    else if pyUpper t = "ECHO" then make_bulk_string arguments
    else .ok []

/-- One handle_command iteration after read_data: a list is destructured
into command and arguments, an empty list raising ValueError; a plain str
is the command with no arguments.  The result is the bytes written. -/
def dispatch : RValue → Except Err (List Nat)
  | .list [] => .error .unpackEmpty
  | .list (c :: args) => dispatchCmd c args
  | .text t => dispatchCmd (.text t) []

/-- One full iteration of the handle_command loop: decode one value, then
dispatch it; the value is the bytes written and the remaining stream. -/
def connStep (s : List Nat) : Except Err (List Nat × List Nat) := do
  let (v, s1) ← read_data s
  let w ← dispatch v
  .ok (w, s1)

/-- The while True loop of handle_command: all bytes written in order and
the exception that ends the loop; the loop has no other exit. -/
def handle_commandGo : Nat → List Nat → List Nat × Err
  | 0, _ => ([], .outOfFuel)
  | fuel + 1, s =>
    match connStep s with
    | .error e => ([], e)
    | .ok (w, s1) =>
      let r := handle_commandGo fuel s1
      (w ++ r.1, r.2)

/-- handle_command on the whole input stream of a connection; each
successful iteration consumes at least one byte, so the fuel suffices. -/
def handle_command (s : List Nat) : List Nat × Err := handle_commandGo (s.length + 1) s

/-- The sequence of values a child decoder produces from a stream: the
given number of successive decodes succeed, yielding exactly the listed
values in input order, first decoded value first, and leaving the given
remaining stream.  This is the specification relation the array element
loop is checked against. -/
inductive DecodesSeq (rd : List Nat → Except Err (RValue × List Nat)) :
    Nat → List Nat → List RValue → List Nat → Prop where
  | nil (s : List Nat) : DecodesSeq rd 0 s [] s
  | cons {k : Nat} {s s1 s2 : List Nat} {v : RValue} {l : List RValue} :
      rd s = .ok (v, s1) → DecodesSeq rd k s1 l s2 →
      DecodesSeq rd (k + 1) s (v :: l) s2

/-! ### Field reader lemmas -/

theorem endsCRLF_append_ne10 (acc : List Nat) (b : Nat) (hb : b ≠ 10) :
    endsCRLF (acc ++ [b]) = false := by
  unfold endsCRLF
  rw [List.reverse_append]
  cases h : acc.reverse with
  | nil => rfl
  | cons c rest => simp [hb]

theorem endsCRLF_crlf (xs : List Nat) : endsCRLF (xs ++ [13, 10]) = true := by
  unfold endsCRLF
  rw [List.reverse_append]
  rfl

theorem readNextFieldGo_no10 (xs : List Nat) :
    ∀ (acc rest : List Nat), (∀ b ∈ xs, b ≠ 10) → endsCRLF acc = false →
      readNextFieldGo acc (xs ++ 13 :: 10 :: rest) = (acc ++ xs ++ [13, 10], rest) := by
  induction xs with
  | nil =>
    intro acc rest _ hacc
    have h13 : endsCRLF (acc ++ [13]) = false := endsCRLF_append_ne10 acc 13 (by omega)
    have hok : endsCRLF (acc ++ [13] ++ [10]) = true := by
      rw [List.append_assoc]
      exact endsCRLF_crlf acc
    simp only [List.nil_append]
    rw [readNextFieldGo, if_neg (by simp [hacc])]
    rw [readNextFieldGo, if_neg (by simp [h13])]
    cases rest with
    | nil =>
      rw [readNextFieldGo]
      simp
    | cons r rs =>
      rw [readNextFieldGo, if_pos (by rw [List.append_assoc]; exact endsCRLF_crlf acc)]
      simp
  | cons x xs ih =>
    intro acc rest hx hacc
    have hx10 : x ≠ 10 := hx x (by simp)
    rw [List.cons_append, readNextFieldGo, if_neg (by simp [hacc])]
    rw [ih (acc ++ [x]) rest (fun b hb => hx b (by simp [hb]))
      (endsCRLF_append_ne10 acc x hx10)]
    simp

theorem read_next_field_token (xs rest : List Nat) (hx : ∀ b ∈ xs, b ≠ 10) :
    read_next_field (xs ++ 13 :: 10 :: rest) = (xs ++ [13, 10], rest) := by
  unfold read_next_field
  rw [readNextFieldGo_no10 xs [] rest hx rfl]
  simp

/-! ### Decimal digit lemmas -/

theorem digitChar_toNat {d : Nat} (hd : d < 10) : (digitChar d).toNat = 48 + d := by
  interval_cases d <;> rfl

theorem digitChar_isDigit {d : Nat} (hd : d < 10) : (digitChar d).isDigit = true := by
  interval_cases d <;> rfl

theorem digitChar_not_space {d : Nat} (hd : d < 10) : pyIsSpace (digitChar d) = false := by
  interval_cases d <;> rfl

theorem digitChar_ne_dash {d : Nat} (hd : d < 10) : digitChar d ≠ '-' := by
  interval_cases d <;> decide

theorem digitChar_ne_plus {d : Nat} (hd : d < 10) : digitChar d ≠ '+' := by
  interval_cases d <;> decide

theorem natToDecimalGo_canon (n : Nat) :
    ∀ (fuel : Nat), n < fuel → natToDecimalGo fuel n = natToDecimal n := by
  induction n using Nat.strong_induction_on with
  | _ n ih =>
    intro fuel hf
    cases fuel with
    | zero => omega
    | succ f =>
      by_cases h10 : n < 10
      · rw [natToDecimalGo, if_pos h10, natToDecimal, natToDecimalGo, if_pos h10]
      · have hdiv : n / 10 < n := Nat.div_lt_self (by omega) (by omega)
        rw [natToDecimalGo, if_neg h10, natToDecimal, natToDecimalGo, if_neg h10]
        rw [ih (n / 10) hdiv f (by omega), ih (n / 10) hdiv n hdiv]

theorem natToDecimal_eq (n : Nat) :
    natToDecimal n =
      if n < 10 then [digitChar n]
      else natToDecimal (n / 10) ++ [digitChar (n % 10)] := by
  by_cases h10 : n < 10
  · rw [natToDecimal, natToDecimalGo, if_pos h10, if_pos h10]
  · have hdiv : n / 10 < n := Nat.div_lt_self (by omega) (by omega)
    rw [natToDecimal, natToDecimalGo, if_neg h10, if_neg h10,
      natToDecimalGo_canon (n / 10) n hdiv]

theorem natToDecimal_ne_nil (n : Nat) : natToDecimal n ≠ [] := by
  rw [natToDecimal_eq]
  by_cases h : n < 10 <;> simp [h]

theorem natToDecimal_digits (n : Nat) :
    ∀ c ∈ natToDecimal n, ∃ d, d < 10 ∧ c = digitChar d := by
  induction n using Nat.strong_induction_on with
  | _ n ih =>
    rw [natToDecimal_eq]
    by_cases h10 : n < 10
    · simp only [if_pos h10, List.mem_singleton]
      exact fun c hc => ⟨n, h10, hc⟩
    · have hdiv : n / 10 < n := Nat.div_lt_self (by omega) (by omega)
      simp only [if_neg h10, List.mem_append, List.mem_singleton]
      rintro c (hc | hc)
      · exact ih (n / 10) hdiv c hc
      · exact ⟨n % 10, Nat.mod_lt n (by omega), hc⟩

theorem natToDecimal_all_isDigit (n : Nat) :
    ∀ c ∈ natToDecimal n, c.isDigit = true := by
  intro c hc
  obtain ⟨d, hd, rfl⟩ := natToDecimal_digits n c hc
  exact digitChar_isDigit hd

theorem pyDigitsAux_digit_cons (acc : Nat) (c : Char) (cs : List Char)
    (hc : c.isDigit = true) :
    pyDigitsAux acc (c :: cs) = pyDigitsAux (10 * acc + (c.toNat - 48)) cs := by
  cases cs with
  | nil => simp [pyDigitsAux, hc]
  | cons d rest => simp [pyDigitsAux, hc]

theorem pyDigitsAux_all_digit :
    ∀ (xs : List Char) (acc : Nat), (∀ c ∈ xs, c.isDigit = true) →
      pyDigitsAux acc xs = some (digitsFold acc xs) := by
  intro xs
  induction xs with
  | nil => intro acc _; rfl
  | cons c cs ih =>
    intro acc h
    have hc : c.isDigit = true := h c (by simp)
    rw [pyDigitsAux_digit_cons acc c cs hc, ih _ (fun x hx => h x (by simp [hx]))]
    rfl

theorem digitsFold_append (acc : Nat) (xs ys : List Char) :
    digitsFold acc (xs ++ ys) = digitsFold (digitsFold acc xs) ys := by
  unfold digitsFold
  exact List.foldl_append _ _ _ _

theorem digitsFold_natToDecimal (n : Nat) :
    ∀ (acc : Nat), digitsFold acc (natToDecimal n) =
      acc * 10 ^ (natToDecimal n).length + n := by
  induction n using Nat.strong_induction_on with
  | _ n ih =>
    intro acc
    by_cases h10 : n < 10
    · rw [natToDecimal_eq, if_pos h10]
      show digitsFold acc [digitChar n] = acc * 10 ^ 1 + n
      unfold digitsFold
      simp [List.foldl, digitChar_toNat h10]
      omega
    · have hdiv : n / 10 < n := Nat.div_lt_self (by omega) (by omega)
      have hmod : 10 * (n / 10) + n % 10 = n := Nat.div_add_mod n 10
      rw [natToDecimal_eq, if_neg h10, digitsFold_append, ih (n / 10) hdiv acc]
      show 10 * (acc * 10 ^ (natToDecimal (n / 10)).length + n / 10) +
          ((digitChar (n % 10)).toNat - 48) =
        acc * 10 ^ (natToDecimal (n / 10) ++ [digitChar (n % 10)]).length + n
      rw [digitChar_toNat (Nat.mod_lt n (by omega)), List.length_append,
        List.length_singleton, pow_succ]
      have h48 : 48 + n % 10 - 48 = n % 10 := by omega
      rw [h48]
      calc 10 * (acc * 10 ^ (natToDecimal (n / 10)).length + n / 10) + n % 10
          = acc * 10 ^ (natToDecimal (n / 10)).length * 10 +
              (10 * (n / 10) + n % 10) := by ring
        _ = acc * (10 ^ (natToDecimal (n / 10)).length * 10) + n := by rw [hmod]; ring

theorem pyParseDigits_natToDecimal (n : Nat) :
    pyParseDigits (natToDecimal n) = some n := by
  have hall := natToDecimal_all_isDigit n
  have h0 : pyDigitsAux 0 (natToDecimal n) = some n := by
    rw [pyDigitsAux_all_digit _ _ hall, digitsFold_natToDecimal n 0]
    simp
  cases h : natToDecimal n with
  | nil => exact absurd h (natToDecimal_ne_nil n)
  | cons c cs =>
    have hc : c.isDigit = true := by
      apply hall
      rw [h]
      simp
    rw [pyParseDigits, if_pos hc]
    rw [h, pyDigitsAux_digit_cons 0 c cs hc] at h0
    simpa using h0

theorem pyIntList_natToDecimal (n : Nat) :
    pyIntList (natToDecimal n) = .ok (n : Int) := by
  cases h : natToDecimal n with
  | nil => exact absurd h (natToDecimal_ne_nil n)
  | cons c cs =>
    obtain ⟨d, hd, rfl⟩ := natToDecimal_digits n c (by rw [h]; simp)
    rw [pyIntList, if_neg (digitChar_ne_dash hd), if_neg (digitChar_ne_plus hd),
      ← h, pyParseDigits_natToDecimal n]

theorem pyIntList_neg_natToDecimal (n : Nat) :
    pyIntList ('-' :: natToDecimal n) = .ok (-(n : Int)) := by
  rw [pyIntList, if_pos rfl, pyParseDigits_natToDecimal n]

theorem natToDecimal_bytes_ne10 (n : Nat) :
    ∀ b ∈ (natToDecimal n).map Char.toNat, b ≠ 10 := by
  intro b hb
  obtain ⟨c, hc, rfl⟩ := List.mem_map.mp hb
  obtain ⟨d, hd, rfl⟩ := natToDecimal_digits n c hc
  rw [digitChar_toNat hd]
  omega

theorem natToDecimal_ascii (n : Nat) : ∀ c ∈ natToDecimal n, c.toNat < 128 := by
  intro c hc
  obtain ⟨d, hd, rfl⟩ := natToDecimal_digits n c hc
  rw [digitChar_toNat hd]
  omega

theorem natToDecimal_not_space (n : Nat) :
    ∀ c ∈ natToDecimal n, pyIsSpace c = false := by
  intro c hc
  obtain ⟨d, hd, rfl⟩ := natToDecimal_digits n c hc
  exact digitChar_not_space hd

/-! ### Strip lemmas -/

theorem dropWhile_all_false {p : Char → Bool} (l : List Char)
    (h : ∀ c ∈ l, p c = false) : l.dropWhile p = l := by
  cases l with
  | nil => rfl
  | cons c cs => rw [List.dropWhile_cons, if_neg (by simp [h c (by simp)])]

theorem pyStripList_token (l : List Char) (hne : l ≠ [])
    (h : ∀ c ∈ l, pyIsSpace c = false) :
    pyStripList (l ++ ['\r', '\n']) = l := by
  unfold pyStripList
  cases l with
  | nil => exact absurd rfl hne
  | cons c cs =>
    have hc := h c (by simp)
    rw [List.cons_append, List.dropWhile_cons, if_neg (by simp [hc])]
    rw [← List.cons_append, List.reverse_append]
    rw [show (['\r', '\n'] : List Char).reverse = ['\n', '\r'] from rfl]
    rw [show (['\n', '\r'] : List Char) ++ (c :: cs).reverse =
      '\n' :: '\r' :: (c :: cs).reverse from rfl]
    rw [List.dropWhile_cons, if_pos (show pyIsSpace '\n' = true from rfl)]
    rw [List.dropWhile_cons, if_pos (show pyIsSpace '\r' = true from rfl)]
    rw [dropWhile_all_false _ (fun x hx => h x (List.mem_reverse.mp hx))]
    exact List.reverse_reverse _

theorem pyStripList_append_crlf (l : List Char) :
    pyStripList (l ++ ['\r', '\n']) = pyStripList l := by
  unfold pyStripList
  rw [List.dropWhile_append]
  by_cases h : (l.dropWhile pyIsSpace).isEmpty
  · rw [if_pos h, List.isEmpty_iff.mp h]
    rfl
  · rw [if_neg h, List.reverse_append]
    rw [show (['\r', '\n'] : List Char).reverse = ['\n', '\r'] from rfl]
    rw [show (['\n', '\r'] : List Char) ++ (l.dropWhile pyIsSpace).reverse =
      '\n' :: '\r' :: (l.dropWhile pyIsSpace).reverse from rfl]
    rw [List.dropWhile_cons, if_pos (show pyIsSpace '\n' = true from rfl)]
    rw [List.dropWhile_cons, if_pos (show pyIsSpace '\r' = true from rfl)]

/-! ### Ascii codec lemmas -/

theorem map_toNat_ofNat (l : List Char) : (l.map Char.toNat).map Char.ofNat = l := by
  rw [List.map_map]
  exact List.map_id'' (fun c => Char.ofNat_toNat c) l

theorem decodeAscii_map_chars (l : List Char) (h : ∀ c ∈ l, c.toNat < 128) :
    decodeAscii (l.map Char.toNat) = .ok (String.mk l) := by
  unfold decodeAscii
  rw [if_pos (by
    intro b hb
    obtain ⟨c, hc, rfl⟩ := List.mem_map.mp hb
    exact h c hc)]
  rw [map_toNat_ofNat]

theorem decodeAscii_strBytes (t : String) (h : isAsciiStr t) :
    decodeAscii (strBytes t) = .ok t :=
  decodeAscii_map_chars t.data h

theorem encodeAscii_ok (t : String) (h : isAsciiStr t) :
    encodeAscii t = .ok (strBytes t) := by
  unfold encodeAscii
  rw [if_pos h]

theorem strBytes_length (t : String) : (strBytes t).length = t.length :=
  List.length_map _ _

/-! ### Wire format lemmas for the decoders -/

theorem exbind_ok {α β : Type} (a : α) (f : α → Except Err β) :
    (do let x ← (Except.ok a : Except Err α); f x) = f a := rfl

theorem exbind_error {α β : Type} (e : Err) (f : α → Except Err β) :
    (do let x ← (Except.error e : Except Err α); f x) = Except.error e := rfl

theorem decodeAscii_token (l : List Char) (h : ∀ c ∈ l, c.toNat < 128) :
    decodeAscii (l.map Char.toNat ++ [13, 10]) =
      .ok (String.mk (l ++ ['\r', '\n'])) := by
  rw [show ([13, 10] : List Nat) = (['\r', '\n'] : List Char).map Char.toNat from rfl,
    ← List.map_append]
  apply decodeAscii_map_chars
  intro c hc
  rcases List.mem_append.mp hc with h1 | h1
  · exact h c h1
  · have h2 : c = '\r' ∨ c = '\n' := by simpa using h1
    rcases h2 with rfl | rfl <;> decide

theorem read_bulk_string_wire (t : String) (rest : List Nat) (h : isAsciiStr t) :
    read_bulk_string ((natToDecimal t.length).map Char.toNat ++ 13 :: 10 ::
      (strBytes t ++ 13 :: 10 :: rest)) = .ok (pyStrip t, rest) := by
  have hdec := decodeAscii_token (natToDecimal t.length) (natToDecimal_ascii t.length)
  have hstrip : pyStrip (String.mk (natToDecimal t.length ++ ['\r', '\n'])) =
      String.mk (natToDecimal t.length) := by
    unfold pyStrip
    exact congrArg String.mk
      (pyStripList_token _ (natToDecimal_ne_nil _) (natToDecimal_not_space _))
  have hint : pyInt (String.mk (natToDecimal t.length)) = .ok (t.length : Int) :=
    pyIntList_natToDecimal t.length
  have htake : List.take t.length (strBytes t ++ 13 :: 10 :: rest) = strBytes t := by
    rw [← strBytes_length t]
    exact List.take_left _ _
  have hdrop : List.drop t.length (strBytes t ++ 13 :: 10 :: rest) = 13 :: 10 :: rest := by
    rw [← strBytes_length t]
    exact List.drop_left _ _
  unfold read_bulk_string
  rw [read_next_field_token _ _ (natToDecimal_bytes_ne10 t.length)]
  simp only [hdec, exbind_ok, hstrip, hint, Int.toNat_ofNat, htake, hdrop]
  rw [if_pos (show List.take 2 (13 :: 10 :: rest) = END_OF_FIELD from rfl)]
  simp only [decodeAscii_strBytes t h, exbind_ok]
  rfl

theorem read_simple_string_wire (t : String) (rest : List Nat) (h : isAsciiStr t)
    (h10 : ∀ c ∈ t.data, c ≠ '\n') :
    read_simple_string (strBytes t ++ 13 :: 10 :: rest) = .ok (pyStrip t, rest) := by
  have hb : ∀ b ∈ strBytes t, b ≠ 10 := by
    intro b hb
    obtain ⟨c, hc, rfl⟩ := List.mem_map.mp hb
    intro hceq
    apply h10 c hc
    have h2 : Char.ofNat c.toNat = Char.ofNat 10 := by rw [hceq]
    rwa [Char.ofNat_toNat] at h2
  have hdec : decodeAscii (strBytes t ++ [13, 10]) =
      .ok (String.mk (t.data ++ ['\r', '\n'])) := decodeAscii_token t.data h
  have hstrip : pyStrip (String.mk (t.data ++ ['\r', '\n'])) = pyStrip t := by
    unfold pyStrip
    exact congrArg String.mk (pyStripList_append_crlf t.data)
  unfold read_simple_string
  rw [read_next_field_token _ _ hb]
  simp only [hdec, exbind_ok, hstrip]

/-! ### Array loop lemmas -/

theorem read_arrayLoop_length (rd : List Nat → Except Err (RValue × List Nat)) :
    ∀ (k : Nat) (s : List Nat) (l : List RValue) (s2 : List Nat),
      read_arrayLoop rd k s = .ok (l, s2) → l.length = k := by
  intro k
  induction k with
  | zero =>
    intro s l s2 hl
    rw [read_arrayLoop] at hl
    cases hl
    rfl
  | succ k ih =>
    intro s l s2 hl
    rw [read_arrayLoop] at hl
    cases hrd : rd s with
    | error e => simp [hrd, exbind_error] at hl
    | ok p =>
      obtain ⟨v, s1⟩ := p
      simp only [hrd, exbind_ok] at hl
      cases hloop : read_arrayLoop rd k s1 with
      | error e => simp [hloop, exbind_error] at hl
      | ok q =>
        obtain ⟨l2, s3⟩ := q
        simp only [hloop, exbind_ok] at hl
        cases hl
        simpa using ih _ _ _ hloop

theorem read_arrayLoop_propagate (rd : List Nat → Except Err (RValue × List Nat))
    (k : Nat) (s : List Nat) (e : Err) (h : rd s = .error e) :
    read_arrayLoop rd (k + 1) s = .error e := by
  rw [read_arrayLoop]
  simp only [h, exbind_error]

theorem read_arrayLoop_iff (rd : List Nat → Except Err (RValue × List Nat)) :
    ∀ (k : Nat) (s : List Nat) (l : List RValue) (s2 : List Nat),
      read_arrayLoop rd k s = .ok (l, s2) ↔ DecodesSeq rd k s l s2 := by
  intro k
  induction k with
  | zero =>
    intro s l s2
    rw [read_arrayLoop]
    constructor
    · intro h
      cases h
      exact DecodesSeq.nil s
    · intro h
      cases h
      rfl
  | succ k ih =>
    intro s l s2
    rw [read_arrayLoop]
    constructor
    · intro h
      cases hrd : rd s with
      | error e => simp [hrd, exbind_error] at h
      | ok p =>
        obtain ⟨v, s1⟩ := p
        simp only [hrd, exbind_ok] at h
        cases hloop : read_arrayLoop rd k s1 with
        | error e => simp [hloop, exbind_error] at h
        | ok q =>
          obtain ⟨l2, s3⟩ := q
          simp only [hloop, exbind_ok] at h
          cases h
          exact DecodesSeq.cons hrd ((ih _ _ _).mp hloop)
    · intro h
      cases h with
      | cons hrd hseq =>
        simp only [hrd, exbind_ok, (ih _ _ _).mpr hseq]

theorem read_arrayLoop_error_at (rd : List Nat → Except Err (RValue × List Nat)) :
    ∀ (j k : Nat) (s : List Nat) (l : List RValue) (s1 : List Nat) (e : Err),
      j < k → DecodesSeq rd j s l s1 → rd s1 = .error e →
      read_arrayLoop rd k s = .error e := by
  intro j
  induction j with
  | zero =>
    intro k s l s1 e hk hseq herr
    cases hseq
    cases k with
    | zero => omega
    | succ k => exact read_arrayLoop_propagate rd k s e herr
  | succ j ih =>
    intro k s l s1 e hk hseq herr
    cases hseq with
    | cons hrd hseq2 =>
      cases k with
      | zero => omega
      | succ k =>
        rw [read_arrayLoop]
        have hloop := ih k _ _ _ e (by omega) hseq2 herr
        simp only [hrd, exbind_ok, hloop, exbind_error]

/-! ### Dispatcher lemmas -/

theorem getTexts_map (ts : List String) :
    getTexts (ts.map RValue.text) = some ts := by
  induction ts with
  | nil => rfl
  | cons a as ih => simp [getTexts, getText, ih]

theorem getTexts_none :
    ∀ (args : List RValue), args.all RValue.isTextB = false →
      getTexts args = none := by
  intro args
  induction args with
  | nil => intro h; simp at h
  | cons a as ih =>
    intro h
    cases a with
    | text t =>
      have h2 : as.all RValue.isTextB = false := by
        simpa [RValue.isTextB] using h
      simp [getTexts, getText, ih h2]
    | list l => simp [getTexts, getText]

theorem isAsciiStr_append (a b : String) :
    isAsciiStr (a ++ b) ↔ isAsciiStr a ∧ isAsciiStr b := by
  show (∀ c ∈ (a ++ b).data, c.toNat < 128) ↔ _
  rw [String.data_append]
  exact List.forall_mem_append

theorem spaceJoin_ascii :
    ∀ (args : List String), (∀ a ∈ args, isAsciiStr a) →
      isAsciiStr (spaceJoin args) := by
  intro args
  induction args with
  | nil =>
    intro _ c hc
    simp [spaceJoin] at hc
  | cons a as ih =>
    intro h
    cases as with
    | nil => exact fun c hc => h a (by simp) c hc
    | cons b bs =>
      have hsj : spaceJoin (a :: b :: bs) = a ++ " " ++ spaceJoin (b :: bs) := rfl
      rw [hsj, isAsciiStr_append, isAsciiStr_append]
      exact ⟨⟨h a (by simp), by decide⟩, ih (fun x hx => h x (by simp [hx]))⟩

theorem pyJoin_texts (args : List String) :
    pyJoin (args.map RValue.text) = .ok (spaceJoin args) := by
  unfold pyJoin
  rw [getTexts_map args]

theorem make_bulk_string_texts (args : List String) (h : ∀ a ∈ args, isAsciiStr a) :
    make_bulk_string (args.map RValue.text) =
      .ok (strBytes ("$" ++ String.mk (natToDecimal (spaceJoin args).length) ++ "\r\n"
        ++ spaceJoin args ++ "\r\n")) := by
  have hbig : isAsciiStr ("$" ++ String.mk (natToDecimal (spaceJoin args).length)
      ++ "\r\n" ++ spaceJoin args ++ "\r\n") := by
    rw [isAsciiStr_append, isAsciiStr_append, isAsciiStr_append, isAsciiStr_append]
    exact ⟨⟨⟨⟨by decide, natToDecimal_ascii _⟩, by decide⟩,
      spaceJoin_ascii args h⟩, by decide⟩
  unfold make_bulk_string
  rw [pyJoin_texts args]
  simp only [exbind_ok]
  rw [encodeAscii_ok _ hbig]

theorem make_bulk_string_nonText (args : List RValue)
    (h : args.all RValue.isTextB = false) :
    make_bulk_string args = .error .joinNonText := by
  unfold make_bulk_string pyJoin
  rw [getTexts_none args h]
  rfl

theorem dispatchCmd_text (t : String) (args : List RValue) :
    dispatchCmd (.text t) args =
      if pyUpper t = "PING" then .ok handle_ping
      else if pyUpper t = "ECHO" then make_bulk_string args
      else .ok [] := rfl

theorem dispatchCmd_echo (args : List RValue) :
    dispatchCmd (.text "ECHO") args = make_bulk_string args := by
  rw [dispatchCmd_text, if_neg (by decide), if_pos (by decide)]

theorem dispatchCmd_ping_upper (t : String) (h : pyUpper t = "PING")
    (args : List RValue) : dispatchCmd (.text t) args = .ok handle_ping := by
  rw [dispatchCmd_text, if_pos h]

theorem dispatchCmd_other (t : String) (h1 : pyUpper t ≠ "PING")
    (h2 : pyUpper t ≠ "ECHO") (args : List RValue) :
    dispatchCmd (.text t) args = .ok [] := by
  rw [dispatchCmd_text, if_neg h1, if_neg h2]

/-! ### Decoder dispatch lemmas -/

theorem read_dataF_succ_bulk (fuel : Nat) (s : List Nat) :
    read_dataF (fuel + 1) (36 :: s) = (do
      let (u, s2) ← read_bulk_string s
      Except.ok (RValue.text u, s2)) := rfl

theorem read_dataF_succ_simple (fuel : Nat) (s : List Nat) :
    read_dataF (fuel + 1) (43 :: s) = (do
      let (u, s2) ← read_simple_string s
      Except.ok (RValue.text u, s2)) := rfl

theorem read_dataF_nil (fuel : Nat) :
    read_dataF (fuel + 1) [] = .error .unknownType := rfl

/-! ### Connection loop lemmas -/

theorem connStep_ok (s : List Nat) (v : RValue) (s1 w : List Nat)
    (hread : read_data s = .ok (v, s1)) (hdisp : dispatch v = .ok w) :
    connStep s = .ok (w, s1) := by
  unfold connStep
  simp only [hread, exbind_ok, hdisp]

theorem connStep_dispatch_error (s : List Nat) (v : RValue) (s1 : List Nat) (e : Err)
    (hread : read_data s = .ok (v, s1)) (hdisp : dispatch v = .error e) :
    connStep s = .error e := by
  unfold connStep
  simp only [hread, exbind_ok, hdisp, exbind_error]

theorem handle_commandGo_error (fuel : Nat) (s : List Nat) (e : Err)
    (h : connStep s = .error e) : handle_commandGo (fuel + 1) s = ([], e) := by
  rw [handle_commandGo, h]

theorem handle_commandGo_ok (fuel : Nat) (s : List Nat) (w s1 : List Nat)
    (h : connStep s = .ok (w, s1)) :
    handle_commandGo (fuel + 1) s =
      (w ++ (handle_commandGo fuel s1).1, (handle_commandGo fuel s1).2) := by
  rw [handle_commandGo, h]

/-! ### Claim C1 -/

/-- C1 counterexample: the wire bytes of the bulk string with declared
length 2 and content space a decode to the stripped text a, and re
encoding that text, with the computed length or with the declared length
2, does not reproduce the original wire bytes.  The claimed round trip
fails whenever the content carries outer whitespace. -/
theorem C1_counterexample :
    read_data [36, 50, 13, 10, 32, 97, 13, 10] = .ok (.text "a", [])
    ∧ make_bulk_string [.text "a"] = .ok [36, 49, 13, 10, 97, 13, 10]
    ∧ ([36, 49, 13, 10, 97, 13, 10] : List Nat) ≠ [36, 50, 13, 10, 32, 97, 13, 10]
    ∧ (36 :: 50 :: 13 :: 10 :: strBytes "a" ++ [13, 10] : List Nat)
        ≠ [36, 50, 13, 10, 32, 97, 13, 10] :=
  ⟨rfl, rfl, by decide, by decide⟩

/-- C1 (amended): for every ascii content t that the strip leaves
unchanged, decoding the bulk string wire of t consumes exactly the
declared number of content bytes plus the two terminator bytes, leaving
the rest of the stream untouched, and re encoding the decoded text
reproduces the original wire bytes. -/
theorem C1_bulk_roundtrip_amended (t : String) (rest : List Nat)
    (hascii : isAsciiStr t) (hstrip : pyStrip t = t) :
    read_data (bulkWire t ++ rest) = .ok (.text t, rest)
    ∧ make_bulk_string [.text t] = .ok (bulkWire t) := by
  constructor
  · have hshape : bulkWire t ++ rest =
        36 :: ((natToDecimal t.length).map Char.toNat ++ 13 :: 10 ::
          (strBytes t ++ 13 :: 10 :: rest)) := by
      unfold bulkWire
      simp [List.append_assoc]
    rw [hshape, read_data, List.length_cons, read_dataF_succ_bulk,
      read_bulk_string_wire t rest hascii]
    simp only [exbind_ok]
    rw [hstrip]
  · have hbytes : strBytes ("$" ++ String.mk (natToDecimal t.length) ++ "\r\n"
        ++ t ++ "\r\n") = bulkWire t := by
      unfold strBytes bulkWire
      have e1 : ("$" ++ String.mk (natToDecimal t.length) ++ "\r\n" ++ t ++ "\r\n").data
          = '$' :: (natToDecimal t.length ++ ('\r' :: '\n' :: (t.data ++ ['\r', '\n']))) := by
        rw [String.data_append, String.data_append, String.data_append,
          String.data_append]
        rw [show ("$" : String).data = ['$'] from rfl,
          show ("\r\n" : String).data = ['\r', '\n'] from rfl]
        simp [List.append_assoc]
      rw [e1]
      simp only [List.map_cons, List.map_append, List.map_nil]
      rfl
    have h2 : make_bulk_string [RValue.text t] =
        .ok (strBytes ("$" ++ String.mk (natToDecimal (spaceJoin [t]).length)
          ++ "\r\n" ++ spaceJoin [t] ++ "\r\n")) :=
      make_bulk_string_texts [t] (by
        intro a ha
        have : a = t := by simpa using ha
        rw [this]
        exact hascii)
    rw [show spaceJoin [t] = t from rfl] at h2
    rw [h2, hbytes]

/-- C1 witness instance at the content abc and empty remaining stream. -/
theorem C1_witness :
    read_data (bulkWire "abc" ++ []) = .ok (.text "abc", [])
    ∧ make_bulk_string [.text "abc"] = .ok (bulkWire "abc") :=
  C1_bulk_roundtrip_amended "abc" [] (by decide) (by decide)

/-! ### Claim C2 -/

/-- C2 counterexample: an input stream holding exactly one complete PING
request and nothing further makes the connection loop write the pong
reply and then terminate with the unknown type marker exception raised by
read_type on the empty read at end of stream, not cleanly. -/
theorem C2_counterexample :
    handle_command [42, 49, 13, 10, 36, 52, 13, 10, 80, 73, 78, 71, 13, 10]
      = (strBytes "+PONG\r\n", Err.unknownType) := rfl

/-- C2 (amended): when the stream has no further bytes, the next loop
iteration raises the unknown type marker exception from read_type reading
the empty marker, so the loop terminates with that error rather than
cleanly. -/
theorem C2_loop_eof_amended : ∀ (fuel : Nat),
    handle_commandGo (fuel + 1) [] = ([], Err.unknownType) := by
  intro fuel
  exact handle_commandGo_error fuel [] _ rfl

/-! ### Claim C3 -/

/-- C3 counterexample: the bulk string with length token minus one decodes
successfully to the empty string instead of failing with a length error:
the negative length makes the content loop run zero times and the
terminator check still passes. -/
theorem C3_counterexample :
    read_bulk_string [45, 49, 13, 10, 13, 10] = .ok ("", []) := rfl

/-- C3 (amended): a length token that is not an integer literal fails with
ValueError from int(), but a negative length token is accepted: zero
content bytes are read, the next two bytes must still be the terminator,
and the decoded content is the empty string. -/
theorem C3_length_amended : ∀ (k : Nat) (rest : List Nat),
    read_bulk_string ((45 :: (natToDecimal (k + 1)).map Char.toNat)
        ++ 13 :: 10 :: 13 :: 10 :: rest) = .ok ("", rest)
    ∧ read_bulk_string (97 :: 98 :: 99 :: 13 :: 10 :: rest) = .error .invalidInt := by
  intro k rest
  constructor
  · have hne : ∀ b ∈ 45 :: (natToDecimal (k + 1)).map Char.toNat, b ≠ 10 := by
      intro b hb
      rcases List.mem_cons.mp hb with rfl | hb
      · omega
      · exact natToDecimal_bytes_ne10 _ b hb
    have hdec : decodeAscii ((45 :: (natToDecimal (k + 1)).map Char.toNat) ++ [13, 10])
        = .ok (String.mk (('-' :: natToDecimal (k + 1)) ++ ['\r', '\n'])) := by
      rw [show (45 : Nat) :: (natToDecimal (k + 1)).map Char.toNat
        = ('-' :: natToDecimal (k + 1)).map Char.toNat from rfl]
      apply decodeAscii_token
      intro c hc
      rcases List.mem_cons.mp hc with rfl | hc
      · decide
      · exact natToDecimal_ascii _ c hc
    have hstrip2 : pyStrip (String.mk (('-' :: natToDecimal (k + 1)) ++ ['\r', '\n']))
        = String.mk ('-' :: natToDecimal (k + 1)) := by
      unfold pyStrip
      refine congrArg String.mk (pyStripList_token _ (by simp) ?_)
      intro c hc
      rcases List.mem_cons.mp hc with rfl | hc
      · decide
      · exact natToDecimal_not_space _ c hc
    have hint2 : pyInt (String.mk ('-' :: natToDecimal (k + 1)))
        = .ok (-((k + 1 : Nat) : Int)) := pyIntList_neg_natToDecimal (k + 1)
    unfold read_bulk_string
    rw [read_next_field_token _ _ hne]
    simp only [hdec, exbind_ok, hstrip2, hint2]
    rw [show (-((k + 1 : Nat) : Int)).toNat = 0 from by omega]
    rw [if_pos (show List.take 2 (List.drop 0 (13 :: 10 :: rest)) = END_OF_FIELD from rfl)]
    rfl
  · rw [show (97 : Nat) :: 98 :: 99 :: 13 :: 10 :: rest
      = [97, 98, 99] ++ 13 :: 10 :: rest from rfl]
    unfold read_bulk_string
    rw [read_next_field_token [97, 98, 99] rest (by decide)]
    rfl

/-! ### Claim C4 -/

/-- C4 counterexample: dispatching ping with a non text argument is not an
error: the argument is ignored and the pong reply is written. -/
theorem C4_counterexample :
    dispatch (.list [.text "ping", .list [.text "x"]]) = .ok (strBytes "+PONG\r\n") := rfl

/-- C4 (amended): a non text element among the arguments raises the
TypeError of the space join only when the command is ECHO; PING ignores
its arguments entirely and replies with pong. -/
theorem C4_nontext_amended : ∀ (args : List RValue),
    (args.all RValue.isTextB = false →
      dispatch (.list (.text "ECHO" :: args)) = .error .joinNonText)
    ∧ dispatch (.list (.text "PING" :: args)) = .ok (strBytes "+PONG\r\n") := by
  intro args
  constructor
  · intro h
    show dispatchCmd (.text "ECHO") args = _
    rw [dispatchCmd_echo, make_bulk_string_nonText args h]
  · show dispatchCmd (.text "PING") args = _
    rw [dispatchCmd_ping_upper "PING" (by decide) args]
    rfl

/-- C4 witness instance with a list among the ECHO arguments. -/
theorem C4_witness :
    dispatch (.list [.text "ECHO", .text "a", .list []]) = .error .joinNonText :=
  (C4_nontext_amended [RValue.text "a", RValue.list []]).1 rfl

/-! ### Claim C5 -/

/-- C5: the array element loop succeeds exactly when the declared number
of child values decode in succession, and then its output is that
sequence of child values in input order, first decoded value first, with
exactly the declared count of elements; and when the child decoder fails,
for example because the stream ended, after any number of successfully
decoded children, the loop propagates that error and never returns a
partial list. -/
theorem C5_array_count : ∀ (fuel k : Nat) (s : List Nat),
    (∀ (l : List RValue) (s2 : List Nat),
      read_arrayLoop (read_dataF fuel) k s = .ok (l, s2) ↔
        DecodesSeq (read_dataF fuel) k s l s2)
    ∧ (∀ (l : List RValue) (s2 : List Nat),
      read_arrayLoop (read_dataF fuel) k s = .ok (l, s2) → l.length = k)
    ∧ (∀ (j : Nat) (l : List RValue) (s1 : List Nat) (e : Err),
      j < k → DecodesSeq (read_dataF fuel) j s l s1 →
      read_dataF fuel s1 = .error e →
      read_arrayLoop (read_dataF fuel) k s = .error e) :=
  fun fuel k s =>
    ⟨fun l s2 => read_arrayLoop_iff (read_dataF fuel) k s l s2,
     fun l s2 h => read_arrayLoop_length (read_dataF fuel) k s l s2 h,
     fun j l s1 e hk hseq herr =>
       read_arrayLoop_error_at (read_dataF fuel) j k s l s1 e hk hseq herr⟩

/-- C5 witness: a one element loop over a simple string realizes the
decode sequence with that element in order and has length one, and a loop
whose stream is exhausted after zero children propagates the unknown type
error of the empty read. -/
theorem C5_witness :
    DecodesSeq (read_dataF 3) 1 [43, 79, 75, 13, 10] [RValue.text "OK"] []
    ∧ ([RValue.text "OK"] : List RValue).length = 1
    ∧ read_arrayLoop (read_dataF 1) 1 [] = .error .unknownType :=
  ⟨((C5_array_count 3 1 [43, 79, 75, 13, 10]).1 [RValue.text "OK"] []).mp rfl,
   (C5_array_count 3 1 [43, 79, 75, 13, 10]).2.1 [RValue.text "OK"] [] rfl,
   (C5_array_count 1 1 []).2.2 0 [] [] Err.unknownType (by omega)
     (DecodesSeq.nil []) rfl⟩

/-! ### Claim C6 -/

/-- C6: dispatched ECHO with text arguments replies with the bulk string
encoding of the single space join of the arguments; in particular the
arguments hello world give the reply with declared length 11, and zero
arguments give the empty bulk string reply. -/
theorem C6_echo_join :
    (∀ (args : List String), (∀ a ∈ args, isAsciiStr a) →
      dispatch (.list (.text "ECHO" :: args.map RValue.text)) =
        .ok (strBytes ("$" ++ String.mk (natToDecimal (spaceJoin args).length)
          ++ "\r\n" ++ spaceJoin args ++ "\r\n")))
    ∧ dispatch (.list [.text "ECHO", .text "hello", .text "world"]) =
        .ok [36, 49, 49, 13, 10, 104, 101, 108, 108, 111, 32,
          119, 111, 114, 108, 100, 13, 10]
    ∧ dispatch (.list [.text "ECHO"]) = .ok [36, 48, 13, 10, 13, 10] := by
  refine ⟨?_, rfl, rfl⟩
  intro args h
  show dispatchCmd (.text "ECHO") (args.map RValue.text) = _
  rw [dispatchCmd_echo, make_bulk_string_texts args h]

/-- C6 witness instance at the arguments hello and world. -/
theorem C6_witness :
    dispatch (.list (.text "ECHO" :: (["hello", "world"].map RValue.text))) =
      .ok (strBytes ("$" ++ String.mk (natToDecimal (spaceJoin ["hello", "world"]).length)
        ++ "\r\n" ++ spaceJoin ["hello", "world"] ++ "\r\n")) :=
  C6_echo_join.1 ["hello", "world"] (by decide)

/-! ### Claim C7 -/

/-- C7: every dispatched command whose name uppercases to PING, in list
form with any arguments or as a bare text command, writes exactly the
pong reply bytes, ignoring the arguments. -/
theorem C7_ping_reply : ∀ (name : String) (args : List RValue),
    pyUpper name = "PING" →
    dispatch (.list (.text name :: args)) = .ok (strBytes "+PONG\r\n")
    ∧ dispatch (.text name) = .ok (strBytes "+PONG\r\n") := by
  intro name args h
  constructor
  · show dispatchCmd (.text name) args = _
    rw [dispatchCmd_ping_upper name h]
    rfl
  · show dispatchCmd (.text name) [] = _
    rw [dispatchCmd_ping_upper name h]
    rfl

/-- C7 witness instance at the mixed case name PiNg with a non text
argument. -/
theorem C7_witness :
    dispatch (.list [.text "PiNg", .list []]) = .ok (strBytes "+PONG\r\n") :=
  (C7_ping_reply "PiNg" [RValue.list []] (by decide)).1

/-! ### Claim C8 -/

/-- C8: a dispatched command whose text name does not uppercase to PING or
ECHO writes no bytes and raises no error, in list form or bare text form,
and the connection loop simply proceeds to the next request with its
output unchanged. -/
theorem C8_unknown_silent : ∀ (name : String) (args : List RValue),
    pyUpper name ≠ "PING" → pyUpper name ≠ "ECHO" →
    dispatch (.list (.text name :: args)) = .ok []
    ∧ dispatch (.text name) = .ok []
    ∧ (∀ (fuel : Nat) (s s1 : List Nat),
        read_data s = .ok (.list (.text name :: args), s1) →
        handle_commandGo (fuel + 1) s = handle_commandGo fuel s1) := by
  intro name args h1 h2
  have hd : dispatch (.list (.text name :: args)) = .ok [] := by
    show dispatchCmd (.text name) args = _
    exact dispatchCmd_other name h1 h2 args
  refine ⟨hd, ?_, ?_⟩
  · show dispatchCmd (.text name) [] = _
    exact dispatchCmd_other name h1 h2 []
  · intro fuel s s1 hread
    rw [handle_commandGo_ok fuel s [] s1 (connStep_ok s _ s1 [] hread hd)]
    simp

/-- C8 witness instance at the unrecognized command GET. -/
theorem C8_witness :
    dispatch (.list [.text "GET"]) = .ok []
    ∧ handle_commandGo 2 [42, 49, 13, 10, 36, 51, 13, 10, 71, 69, 84, 13, 10]
        = handle_commandGo 1 [] := by
  have h := C8_unknown_silent "GET" [] (by decide) (by decide)
  exact ⟨h.1, h.2.2 1 _ [] rfl⟩

/-! ### Claim C9 -/

/-- C9: bulk string decoding returns the content with leading and trailing
Python whitespace stripped, exactly as simple string decoding does. -/
theorem C9_decode_strips :
    (∀ (t : String) (rest : List Nat), isAsciiStr t →
      read_bulk_string ((natToDecimal t.length).map Char.toNat ++ 13 :: 10 ::
        (strBytes t ++ 13 :: 10 :: rest)) = .ok (pyStrip t, rest))
    ∧ (∀ (t : String) (rest : List Nat), isAsciiStr t → (∀ c ∈ t.data, c ≠ '\n') →
      read_simple_string (strBytes t ++ 13 :: 10 :: rest) = .ok (pyStrip t, rest)) :=
  ⟨fun t rest h => read_bulk_string_wire t rest h,
   fun t rest h h10 => read_simple_string_wire t rest h h10⟩

/-- C9 witness instance at a content with a leading and a trailing
space. -/
theorem C9_witness :
    read_bulk_string ((natToDecimal (" hi " : String).length).map Char.toNat
        ++ 13 :: 10 :: (strBytes " hi " ++ 13 :: 10 :: []))
      = .ok (pyStrip " hi ", []) :=
  C9_decode_strips.1 " hi " [] (by decide)

/-! ### Claim C10 -/

/-- C10: dispatching a decoded empty list raises the ValueError of the
empty destructuring, so the loop iteration terminates the connection with
that error and writes no reply bytes. -/
theorem C10_empty_list : ∀ (fuel : Nat) (s s1 : List Nat),
    read_data s = .ok (.list [], s1) →
    handle_commandGo (fuel + 1) s = ([], Err.unpackEmpty) := by
  intro fuel s s1 hread
  exact handle_commandGo_error fuel s _ (connStep_dispatch_error s _ s1 _ hread rfl)

/-- C10 witness instance at the wire encoding of an empty array. -/
theorem C10_witness :
    handle_commandGo 1 [42, 48, 13, 10] = ([], Err.unpackEmpty) :=
  C10_empty_list 0 [42, 48, 13, 10] [] rfl

end RedisImpl
